import Mathlib

/-!
Shallow embedding of the sequence-analysis core of the genetic-analyzer
repository (src/scripts/analysis_functions.py, src/scripts/main_analyzer.py,
src/app.py), together with theorems settling the specification claims.

Sequences are modelled as `List Char` (Python `str` indexing and slicing).
-/

namespace GeneticAnalyzer

/-- A mutation record, mirroring the dict built by
`detect_mutations_simple` in src/scripts/analysis_functions.py with keys
`type`, `position`, `original`, `mutated`. -/
structure MutationRecord where
  type : String
  position : Nat
  original : List Char
  mutated : List Char
deriving DecidableEq, Repr

/-- Embedding of `detect_mutations_simple(reference_sequence, comparison_sequence)`
from src/scripts/analysis_functions.py: a loop over `range(min_len)` appending a
substitution record at each mismatching index, followed by one insertion record
(`comp_len > ref_len`) or one deletion record (`ref_len > comp_len`) at `min_len`.
The loop body reads `reference_sequence[i]` / `comparison_sequence[i]` at an
index `i < min_len` that is always in bounds; the read is modelled totally as
`List.getD` (the default is never reached). -/
def detect_mutations_simple (reference_sequence comparison_sequence : List Char) :
    List MutationRecord :=
  let ref_len := reference_sequence.length
  let comp_len := comparison_sequence.length
  let min_len := min ref_len comp_len
  ((List.range min_len).filterMap fun i =>
    if reference_sequence.getD i 'A' ≠ comparison_sequence.getD i 'A' then
      some { type := "substitution", position := i,
             original := [reference_sequence.getD i 'A'],
             mutated := [comparison_sequence.getD i 'A'] }
    else none)
  ++
  (if comp_len > ref_len then
    [{ type := "insertion", position := min_len, original := [],
       mutated := comparison_sequence.drop min_len }]
  else if ref_len > comp_len then
    [{ type := "deletion", position := min_len,
       original := reference_sequence.drop min_len, mutated := [] }]
  else [])

/-- `round(x, 2)` on the percentage: round to 2 decimal places. -/
def round2 (q : ℚ) : ℚ := (round (q * 100) : ℚ) / 100

/-- Embedding of `calculate_gc_content(sequence)` from
src/scripts/analysis_functions.py: `0.0` for an empty sequence, otherwise
uppercase the sequence, count `G` and `C`, and return
`round(((g_count + c_count) / len(sequence)) * 100, 2)`. -/
def calculate_gc_content (sequence : List Char) : ℚ :=
  if sequence = [] then 0
  else
    let upper := sequence.map Char.toUpper
    let g_count := upper.count 'G'
    let c_count := upper.count 'C'
    round2 ((((g_count : ℚ) + (c_count : ℚ)) / (sequence.length : ℚ)) * 100)

/-- Embedding of the variation-rate computation in src/app.py:
`seq_len = min(ref_seq_len, comp_seq_len)`;
`variation_rate = (len(variations) / seq_len) * 100 if seq_len > 0 else 0`,
where `variations = detect_mutations_simple(ref_sequence, comp_sequence)`. -/
def variation_rate (ref_sequence comp_sequence : List Char) : ℚ :=
  let variations := detect_mutations_simple ref_sequence comp_sequence
  let seq_len := min ref_sequence.length comp_sequence.length
  if seq_len > 0 then ((variations.length : ℚ) / (seq_len : ℚ)) * 100 else 0

/-! ## Regex matcher model

`find_patterns_regex` delegates matching to Python's `re` module, which is not
part of this repository, so the matching engine is modelled from the spec on a
fragment of regex syntax large enough for the repository's patterns: literal
characters, character classes `[...]`, and the greedy `*` quantifier. -/

/-- One regex atom: a literal character or a character class `[...]`. -/
inductive RAtom where
  | ch (c : Char)
  | cls (cs : List Char)
deriving DecidableEq, Repr

/-- One regex piece: an atom, matched once or under a greedy `*`. -/
inductive RPiece where
  | once (a : RAtom)
  | star (a : RAtom)
deriving DecidableEq, Repr

/-- A regex in the modelled fragment: a concatenation of pieces. -/
abbrev Regex := List RPiece

/-- Modelled from the spec: parsing the body of a character class, up to the
closing `]`. Returns the class characters and the remaining input; `none` when
the bracket is unbalanced (malformed regex syntax, `re.error` in the source). -/
def parseCls : List Char → Option (List Char × List Char)
  | [] => none
  | c :: rest =>
      if c = ']' then some ([], rest)
      else (parseCls rest).map fun p => (c :: p.1, p.2)

/-- Modelled from the spec: regex compilation over the fragment, accumulating
parsed pieces. `[` without a matching `]` and `*` with nothing (or another `*`)
before it are malformed (`re.error`); any other character is a literal. The
`fuel` argument only bounds the recursion: each step consumes at least one
input character (a class consumes at least its closing `]`), so with
`fuel = input length` the out-of-fuel branch is unreachable. -/
def parseRegexAux : Nat → List Char → List RPiece → Option Regex
  | _, [], acc => some acc.reverse
  | 0, _ :: _, _ => none
  | fuel + 1, c :: rest, acc =>
      if c = '[' then
        match parseCls rest with
        | none => none
        | some (cs, r) => parseRegexAux fuel r (.once (.cls cs) :: acc)
      else if c = '*' then
        match acc with
        | .once a :: acc0 => parseRegexAux fuel rest (.star a :: acc0)
        | _ => none
      else parseRegexAux fuel rest (.once (.ch c) :: acc)

/-- Modelled from the spec: `re.compile` on the fragment — `some` a compiled
regex for a valid pattern, `none` (an `re.error`) for a malformed one. -/
def parseRegex (pattern : List Char) : Option Regex :=
  parseRegexAux pattern.length pattern []

/-- Whether one atom matches one character. -/
def matchAtom : RAtom → Char → Bool
  | .ch a, c => a == c
  | .cls cs, c => cs.contains c

/-- Length of the longest prefix of `s` whose characters all match atom `a`. -/
def maxRun (a : RAtom) : List Char → Nat
  | [] => 0
  | c :: s => if matchAtom a c then maxRun a s + 1 else 0

/-- Greedy `*` backtracking: try consuming `i` characters for the starred atom
(the caller starts `i` at the maximal run), falling back one repetition at a
time until the continuation `next` matches the remainder. -/
def starBacktrack (next : List Char → Option Nat) (s : List Char) : Nat → Option Nat
  | 0 => next s
  | i + 1 =>
      match next (s.drop (i + 1)) with
      | some n => some (i + 1 + n)
      | none => starBacktrack next s i

/-- Modelled from the spec: anchored matching of a piece list against a prefix
of `s`, greedy with backtracking (leftmost-first, per the underlying engine's
matching semantics). Returns the number of characters consumed, or `none`. -/
def matchPieces : List RPiece → List Char → Option Nat
  | [], _ => some 0
  | .once a :: ps, s =>
      match s with
      | [] => none
      | c :: s0 => if matchAtom a c then (matchPieces ps s0).map (· + 1) else none
  | .star a :: ps, s => starBacktrack (fun t => matchPieces ps t) s (maxRun a s)

/-- A match record as produced by `find_patterns_regex`: the dict with keys
`start`, `end` (modelled as `stop`, since `end` is reserved) and
`matched_sequence`. -/
structure MatchRecord where
  start : Nat
  stop : Nat
  matched_sequence : List Char
deriving DecidableEq, Repr

/-- Modelled from the spec: one step-indexed left-to-right scan of `re.finditer`.
At each position, attempt an anchored match; on success emit a record and resume
at the match end — advancing by at least one position after a zero-width match —
otherwise resume at the next position. `fuel` only bounds the recursion; it is
ample whenever `fuel ≥ s.length + 1 - pos`. -/
def finditerAux (r : Regex) (s : List Char) : Nat → Nat → List MatchRecord
  | _, 0 => []
  | pos, fuel + 1 =>
      if pos > s.length then []
      else
        match matchPieces r (s.drop pos) with
        | some len =>
            { start := pos, stop := pos + len,
              matched_sequence := (s.drop pos).take len } ::
              finditerAux r s (pos + max len 1) fuel
        | none => finditerAux r s (pos + 1) fuel

/-- Modelled from the spec: `re.finditer` over the fragment — the ordered list
of non-overlapping matches from a single left-to-right scan. -/
def finditerRun (r : Regex) (s : List Char) : List MatchRecord :=
  finditerAux r s 0 (s.length + 1)

/-- Embedding of `find_patterns_regex(sequence, regex_pattern)` from
src/scripts/analysis_functions.py: iterate `re.finditer` collecting
`start`, `end`, `matched_sequence` per match; an `re.error` (malformed
pattern) is caught and the accumulated (empty) list returned. -/
def find_patterns_regex (sequence regex_pattern : List Char) : List MatchRecord :=
  match parseRegex regex_pattern with
  | none => []
  | some r => finditerRun r sequence

/-! ## Database model

The repository talks to PostgreSQL through psycopg2; the store itself is not
part of the repository, so the durable state and the transaction protocol
(stage writes on a connection, `commit` makes them durable, `rollback` discards
them) are modelled from the spec. The committed tables are explicit state;
each operation returns the new state and a report mirroring what the source
prints or raises. -/

/-- A row of the `mutations` table, as inserted by the batch-logging code in
src/scripts/main_analyzer.py and src/app.py. -/
structure MutationRow where
  genome_id : Nat
  mutation_type : String
  position : Nat
  original_sequence : List Char
  mutated_sequence : List Char
deriving DecidableEq, Repr

/-- A row of the `search_results` table, as inserted by
`search_and_log_patterns` (`match_end` modelled as `match_stop`). -/
structure SearchResultRow where
  genome_id : Nat
  pattern_id : Nat
  match_start : Nat
  match_stop : Nat
  matched_sequence : List Char
deriving DecidableEq, Repr

/-- Modelled from the spec: the committed state of the external store —
the `genomes` table (id, sequence), the `patterns` table (id, regex, name)
and the two result tables. -/
structure DB where
  genomes : List (Nat × List Char)
  patterns : List (Nat × List Char × String)
  mutations : List MutationRow
  search_results : List SearchResultRow
deriving DecidableEq, Repr

/-- Modelled from the spec: `SELECT sequence FROM genomes WHERE genome_id = %s`
followed by `fetchone()` — `some` row for a known id, `none` otherwise. -/
def fetchGenome (db : DB) (gid : Nat) : Option (List Char) :=
  (db.genomes.find? fun g => g.1 == gid).map (·.2)

/-- What an operation reports to its caller: the printed not-found message of
`search_and_log_patterns`, the printed failure of a caught exception, or
normal completion. -/
inductive OpReport where
  | notFound (genomeId : Nat)
  | failure (msg : String)
  | ok
deriving DecidableEq, Repr

/-- Modelled from the spec: psycopg2's `execute_batch` over the mutation-insert
template, against a failure model `rowFails` (a row-level constraint violation).
Rows are processed in order; the first failing row raises (`Except.error`),
otherwise all rows are staged on the connection (`Except.ok`). -/
def execute_batch (rowFails : MutationRow → Bool) :
    List MutationRow → Except String (List MutationRow)
  | [] => .ok []
  | row :: rest =>
      if rowFails row then .error "constraint violation"
      else (execute_batch rowFails rest).map (row :: ·)

/-- The tuple built for each detected mutation by the logging code:
`(comp_genome_id, mutation['type'], mutation['position'], mutation['original'],
mutation['mutated'])`. -/
def toMutationRow (gid : Nat) (m : MutationRecord) : MutationRow :=
  { genome_id := gid, mutation_type := m.type, position := m.position,
    original_sequence := m.original, mutated_sequence := m.mutated }

/-- Embedding of `compare_and_log_mutations(ref_genome_id, comp_genome_id)`
from src/scripts/main_analyzer.py. The source reads each sequence as
`cur.fetchone()[0]` with no `None` check, so an unknown genome id raises
`TypeError` inside the `try`, is caught by `except Exception`, printed as a
transaction failure and rolled back. With both sequences fetched, mutations
are detected; an empty list returns without writing; otherwise the batch
insert either raises (caught, rolled back — committed state unchanged) or is
committed in full. The same fetch/detect/`execute_batch`/commit/rollback shape
is the variation-logging path of src/app.py. -/
def compare_and_log_mutations (rowFails : MutationRow → Bool) (db : DB)
    (ref_genome_id comp_genome_id : Nat) : DB × OpReport :=
  match fetchGenome db ref_genome_id with
  | none => (db, .failure "TypeError: NoneType object is not subscriptable")
  | some ref_sequence =>
    match fetchGenome db comp_genome_id with
    | none => (db, .failure "TypeError: NoneType object is not subscriptable")
    | some comp_sequence =>
      let muts := detect_mutations_simple ref_sequence comp_sequence
      if muts = [] then (db, .ok)
      else
        let mutations_to_log := muts.map (toMutationRow comp_genome_id)
        match execute_batch rowFails mutations_to_log with
        | .error e => (db, .failure e)
        | .ok staged => ({ db with mutations := db.mutations ++ staged }, .ok)

/-- Embedding of `search_and_log_patterns(genome_id_to_search)` from
src/scripts/main_analyzer.py. The source checks the fetched row: an unknown
genome id prints `Genome ID ... not found.` and returns before any insert.
Otherwise every catalogued pattern is matched against the sequence and one
`search_results` row is inserted per match, then committed. -/
def search_and_log_patterns (db : DB) (genome_id_to_search : Nat) :
    DB × OpReport :=
  match fetchGenome db genome_id_to_search with
  | none => (db, .notFound genome_id_to_search)
  | some sequence =>
      let rows := db.patterns.flatMap fun p =>
        (find_patterns_regex sequence p.2.1).map fun m =>
          { genome_id := genome_id_to_search, pattern_id := p.1,
            match_start := m.start, match_stop := m.stop,
            matched_sequence := m.matched_sequence : SearchResultRow }
      ({ db with search_results := db.search_results ++ rows }, .ok)

/-! ## Specification-side definitions

Definitions written from the spec's words, to be compared with the embedded
code above. -/

/-- The mutation list exactly as the spec describes it: one `substitution`
record per mismatching position `i` in `[0, k)` in increasing order of `i`,
followed by exactly one `insertion` record at `k` when `n > m`, exactly one
`deletion` record at `k` when `m > n`, and nothing when `m = n`. -/
def mutation_records_spec (R C : List Char) : List MutationRecord :=
  let k := min R.length C.length
  (((List.range k).filter fun i => R.getD i 'A' != C.getD i 'A').map fun i =>
    { type := "substitution", position := i,
      original := [R.getD i 'A'], mutated := [C.getD i 'A'] })
  ++
  (if C.length > R.length then
    [{ type := "insertion", position := k, original := [], mutated := C.drop k }]
  else if R.length > C.length then
    [{ type := "deletion", position := k, original := R.drop k, mutated := [] }]
  else [])

/-- The record transformation the spec associates with swapping the detector's
arguments: `original`/`mutated` exchanged and insertion/deletion types
flipped. -/
def swapRecord (m : MutationRecord) : MutationRecord :=
  { type :=
      if m.type = "insertion" then "deletion"
      else if m.type = "deletion" then "insertion"
      else m.type,
    position := m.position,
    original := m.mutated,
    mutated := m.original }

/-- No anchored match of `r` starts at any position `q` with `lo ≤ q < hi`:
the scan found nothing between two consumed positions. -/
def NoMatchBetween (r : Regex) (s : List Char) (lo hi : Nat) : Prop :=
  ∀ q, lo ≤ q → q < hi → matchPieces r (s.drop q) = none

/-- A two-genome store used as a concrete input in witnesses. -/
def demoDB : DB :=
  { genomes := [(1, "ACGT".toList), (3, "AGGT".toList)],
    patterns := [], mutations := [], search_results := [] }

/-- The empty store used as a concrete input in witnesses and
counterexamples. -/
def emptyDB : DB :=
  { genomes := [], patterns := [], mutations := [], search_results := [] }

/-! ## Helper lemmas -/

/-- A `filterMap` whose function is an if-then-some-else-none is the map of the
selecting function over the filtered list. -/
theorem filterMap_eq_map_filter {α β : Type} (l : List α) (f : α → Option β)
    (p : α → Bool) (g : α → β)
    (h : ∀ a ∈ l, f a = if p a then some (g a) else none) :
    l.filterMap f = (l.filter p).map g := by
  induction l with
  | nil => simp
  | cons a l ih =>
      have ha := h a (by simp)
      have hl := ih fun b hb => h b (by simp [hb])
      by_cases hp : p a
      · rw [List.filterMap_cons, ha, if_pos hp, List.filter_cons, if_pos hp,
          List.map_cons, hl]
      · rw [List.filterMap_cons, ha, if_neg hp, List.filter_cons, if_neg hp, hl]

/-- The detector emits no record when comparing a sequence with itself. -/
theorem detect_self_eq_nil (R : List Char) : detect_mutations_simple R R = [] := by
  simp [detect_mutations_simple]

/-! ## Claim theorems -/

/-- C9: `calculate_gc_content(S)` equals the count of `G` plus the count of
`C`, both case-insensitive, divided by the length, times 100, rounded to two
decimal places; it is `0.0` on the empty sequence, and takes the values
`100.0`, `0.0` and `50.0` on `"GGCC"`, `""` and `"atcg"` respectively. -/
theorem calculate_gc_content_spec :
    (∀ S : List Char,
        calculate_gc_content S =
          if S = [] then 0
          else
            round2 ((((S.countP fun c => c.toUpper == 'G') : ℚ) +
                ((S.countP fun c => c.toUpper == 'C') : ℚ)) /
              (S.length : ℚ) * 100)) ∧
      calculate_gc_content "GGCC".toList = 100 ∧
      calculate_gc_content [] = 0 ∧
      calculate_gc_content "atcg".toList = 50 := by
  have key : ∀ S : List Char,
      calculate_gc_content S =
        if S = [] then 0
        else
          round2 ((((S.countP fun c => c.toUpper == 'G') : ℚ) +
              ((S.countP fun c => c.toUpper == 'C') : ℚ)) /
            (S.length : ℚ) * 100) := by
    intro S
    by_cases hS : S = []
    · simp [calculate_gc_content, hS]
    · simp only [calculate_gc_content, if_neg hS, List.count, List.countP_map]
      rfl
  refine ⟨key, ?_, ?_, ?_⟩
  · rw [key]
    have h1 : ("GGCC".toList.countP fun c => c.toUpper == 'G') = 2 := by decide
    have h2 : ("GGCC".toList.countP fun c => c.toUpper == 'C') = 2 := by decide
    have h3 : "GGCC".toList.length = 4 := by decide
    have h4 : "GGCC".toList ≠ [] := by decide
    simp only [h1, h2, h3, if_neg h4]
    norm_num [round2]
  · rw [key]
    simp
  · rw [key]
    have h1 : ("atcg".toList.countP fun c => c.toUpper == 'G') = 1 := by decide
    have h2 : ("atcg".toList.countP fun c => c.toUpper == 'C') = 1 := by decide
    have h3 : "atcg".toList.length = 4 := by decide
    have h4 : "atcg".toList ≠ [] := by decide
    simp only [h1, h2, h3, if_neg h4]
    norm_num [round2]

/-- C6: the reported variation rate is the number of mutation records divided
by `min(m, n)` times 100, and is `0` exactly on the degenerate case
`min(m, n) = 0`, which happens precisely when one input sequence is empty. -/
theorem variation_rate_spec (R C : List Char) :
    variation_rate R C =
      (if min R.length C.length = 0 then 0
       else ((detect_mutations_simple R C).length : ℚ) /
          ((min R.length C.length : Nat) : ℚ) * 100) ∧
    (min R.length C.length = 0 ↔ R = [] ∨ C = []) := by
  constructor
  · simp only [variation_rate]
    by_cases h : min R.length C.length = 0
    · simp [h]
    · have hpos : 0 < min R.length C.length := Nat.pos_of_ne_zero h
      simp [h, hpos]
  · rw [Nat.min_eq_zero_iff, List.length_eq_zero, List.length_eq_zero]

/-- C10: the detector returns the empty record list exactly when the two
sequences are equal, and comparing any sequence with itself reports variation
rate `0.0`. -/
theorem detect_mutations_simple_empty_iff (R C : List Char) :
    (detect_mutations_simple R C = [] ↔ R = C) ∧ variation_rate R R = 0 := by
  constructor
  · constructor
    · intro h
      simp only [detect_mutations_simple] at h
      rw [List.append_eq_nil] at h
      obtain ⟨h1, h2⟩ := h
      have hlen : R.length = C.length := by
        by_contra hne
        rcases Nat.lt_or_ge R.length C.length with hlt | hge
        · rw [if_pos hlt] at h2
          simp at h2
        · have hgt : C.length < R.length := by omega
          rw [if_neg (by omega), if_pos hgt] at h2
          simp at h2
      rw [List.filterMap_eq_nil_iff] at h1
      refine List.ext_getElem hlen ?_
      intro n h₁ h₂
      have hn : n ∈ List.range (min R.length C.length) :=
        List.mem_range.mpr (by omega)
      have hfn := h1 _ hn
      by_cases he : R.getD n 'A' = C.getD n 'A'
      · rw [List.getD_eq_getElem R 'A' h₁, List.getD_eq_getElem C 'A' h₂] at he
        exact he
      · rw [if_pos he] at hfn
        exact absurd hfn (by simp)
    · intro h
      subst h
      exact detect_self_eq_nil R
  · simp [variation_rate, detect_self_eq_nil R]

/-- C1: the detector's output is exactly one substitution record per
mismatching position in `[0, min(m, n))`, in increasing position order, with
`original`/`mutated` the reference/comparison characters, followed by exactly
one trailing insertion (`n > m`) or deletion (`m > n`) record at `min(m, n)`
carrying the left-over suffix, and no trailing record when `m = n`. -/
theorem detect_mutations_simple_spec (R C : List Char) :
    detect_mutations_simple R C = mutation_records_spec R C := by
  simp only [detect_mutations_simple, mutation_records_spec]
  congr 1
  refine filterMap_eq_map_filter _ _ _ _ ?_
  intro i _
  by_cases hne : R.getD i 'A' = C.getD i 'A'
  · simp [hne]
  · simp [hne]

/-- C7: swapping the detector's arguments exchanges each record's
`original`/`mutated` fields, keeps every substitution position, and turns the
insertion record into the deletion record (and vice versa) with identical
text and position. -/
theorem detect_mutations_simple_swap (R C : List Char) :
    detect_mutations_simple C R =
      (detect_mutations_simple R C).map swapRecord := by
  simp only [detect_mutations_simple]
  rw [List.map_append, Nat.min_comm C.length R.length]
  congr 1
  · rw [List.map_filterMap]
    refine List.filterMap_congr ?_
    intro i _
    by_cases hne : R.getD i 'A' = C.getD i 'A'
    · have h1 : ¬(C.getD i 'A' ≠ R.getD i 'A') := fun hx => hx hne.symm
      have h2 : ¬(R.getD i 'A' ≠ C.getD i 'A') := fun hx => hx hne
      rw [if_neg h1, if_neg h2]
      rfl
    · have hne2 : C.getD i 'A' ≠ R.getD i 'A' := fun hx => hne hx.symm
      rw [if_pos hne2, if_pos hne]
      rfl
  · rcases Nat.lt_trichotomy R.length C.length with hlt | heq | hgt <;>
      split_ifs <;> first | rfl | omega

/-- Scan invariant: every record the scan emits from position `pos` starts at
or after `pos`, inside the sequence, is a real anchored match carrying the
matched slice; the first record is the earliest match at or after `pos`;
consecutive records advance past the previous match end and by at least one
position, with no match in between; and the scan makes at most `fuel`
emissions. -/
theorem finditerAux_invariant (r : Regex) (s : List Char) :
    ∀ fuel pos : Nat,
      (∀ m ∈ finditerAux r s pos fuel,
          pos ≤ m.start ∧ m.start ≤ s.length ∧
          matchPieces r (s.drop m.start) = some (m.stop - m.start) ∧
          m.start ≤ m.stop ∧
          m.matched_sequence = (s.drop m.start).take (m.stop - m.start)) ∧
      (∀ m, (finditerAux r s pos fuel).head? = some m →
          NoMatchBetween r s pos m.start) ∧
      List.Chain'
        (fun a b => max a.stop (a.start + 1) ≤ b.start ∧
          NoMatchBetween r s (max a.stop (a.start + 1)) b.start)
        (finditerAux r s pos fuel) ∧
      (finditerAux r s pos fuel).length ≤ fuel := by
  intro fuel
  induction fuel with
  | zero =>
      intro pos
      simp [finditerAux]
  | succ fuel ih =>
      intro pos
      by_cases hpos : pos > s.length
      · simp [finditerAux, hpos]
      · rcases hm : matchPieces r (s.drop pos) with _ | len
        · have heq : finditerAux r s pos (fuel + 1) =
              finditerAux r s (pos + 1) fuel := by
            rw [finditerAux, if_neg hpos, hm]
          obtain ⟨Hmem, Hhead, Hchain, Hlen⟩ := ih (pos + 1)
          rw [heq]
          refine ⟨?_, ?_, Hchain, Nat.le_succ_of_le Hlen⟩
          · intro m hm2
            obtain ⟨a, b, c, d, e⟩ := Hmem m hm2
            exact ⟨by omega, b, c, d, e⟩
          · intro m hm2
            have hnb := Hhead m hm2
            intro q hq1 hq2
            rcases Nat.eq_or_lt_of_le hq1 with hq | hq
            · rw [← hq]
              exact hm
            · exact hnb q hq hq2
        · have heq : finditerAux r s pos (fuel + 1) =
              { start := pos, stop := pos + len,
                matched_sequence := (s.drop pos).take len } ::
              finditerAux r s (pos + max len 1) fuel := by
            rw [finditerAux, if_neg hpos, hm]
          obtain ⟨Hmem, Hhead, Hchain, Hlen⟩ := ih (pos + max len 1)
          rw [heq]
          refine ⟨?_, ?_, ?_, ?_⟩
          · intro m hm2
            rcases List.mem_cons.mp hm2 with h0 | hrest
            · subst h0
              refine ⟨Nat.le_refl _, show pos ≤ s.length by omega, ?_,
                Nat.le_add_right _ _, ?_⟩
              · show matchPieces r (s.drop pos) = some (pos + len - pos)
                rw [Nat.add_sub_cancel_left]
                exact hm
              · show (s.drop pos).take len = (s.drop pos).take (pos + len - pos)
                rw [Nat.add_sub_cancel_left]
            · obtain ⟨a, b, c, d, e⟩ := Hmem m hrest
              exact ⟨by omega, b, c, d, e⟩
          · intro m hm2
            rw [List.head?_cons] at hm2
            injection hm2 with hm0
            subst hm0
            intro q hq1 hq2
            have hq1a : pos ≤ q := hq1
            have hq2a : q < pos := hq2
            exact absurd hq2a (Nat.not_lt.mpr hq1a)
          · refine List.chain'_cons'.mpr ⟨?_, Hchain⟩
            intro b hb
            have hb2 : b ∈ finditerAux r s (pos + max len 1) fuel :=
              List.mem_of_mem_head? hb
            have h1 := (Hmem b hb2).1
            have h2 := Hhead b (Option.mem_def.mp hb)
            constructor
            · show max (pos + len) (pos + 1) ≤ b.start
              omega
            · intro q hq1 hq2
              refine h2 q ?_ hq2
              have : max (pos + len) (pos + 1) ≤ q := hq1
              omega
          · simp only [List.length_cons]
            omega

/-- C4: a syntactically invalid pattern yields the empty match list; since the
embedded `find_patterns_regex` is a total function into lists, no exception
crosses the matcher boundary — the `re.error` is consumed inside it. -/
theorem find_patterns_regex_invalid (S P : List Char)
    (h : parseRegex P = none) : find_patterns_regex S P = [] := by
  simp [find_patterns_regex, h]

/-- Witness for C4 at the spec's own example of a malformed pattern, an
unbalanced bracket. -/
theorem find_patterns_regex_invalid_witness :
    parseRegex "[AT".toList = none ∧
      find_patterns_regex "ACGTACGT".toList "[AT".toList = [] :=
  ⟨by decide, find_patterns_regex_invalid "ACGTACGT".toList "[AT".toList (by decide)⟩

/-- C5: for a valid pattern, the matcher's output is the single left-to-right
scan: every record is a real anchored match carrying `start`, `end` (half-open)
and the matched text; starts strictly increase and matches never overlap; the
first match starts at the earliest matching position, and between the resume
point after one match and the next match there is no match — each attempt
starts at the earliest unconsumed position. In particular
`"GAATTC"` on `"GAATTCGAATTC"` yields exactly `(0, 6)` and `(6, 12)`. -/
theorem find_patterns_regex_scan (S P : List Char) (r : Regex)
    (h : parseRegex P = some r) :
    (∀ m ∈ find_patterns_regex S P,
        matchPieces r (S.drop m.start) = some (m.stop - m.start) ∧
        m.start ≤ m.stop ∧ m.start ≤ S.length ∧
        m.matched_sequence = (S.drop m.start).take (m.stop - m.start)) ∧
    List.Chain' (fun a b => a.stop ≤ b.start ∧ a.start < b.start)
      (find_patterns_regex S P) ∧
    (∀ m, (find_patterns_regex S P).head? = some m →
        NoMatchBetween r S 0 m.start) ∧
    List.Chain'
      (fun a b => NoMatchBetween r S (max a.stop (a.start + 1)) b.start)
      (find_patterns_regex S P) ∧
    find_patterns_regex "GAATTCGAATTC".toList "GAATTC".toList =
      [{ start := 0, stop := 6, matched_sequence := "GAATTC".toList },
       { start := 6, stop := 12, matched_sequence := "GAATTC".toList }] := by
  have hfr : find_patterns_regex S P = finditerAux r S 0 (S.length + 1) := by
    simp [find_patterns_regex, h, finditerRun]
  obtain ⟨Hmem, Hhead, Hchain, -⟩ := finditerAux_invariant r S (S.length + 1) 0
  rw [hfr]
  refine ⟨?_, ?_, Hhead, ?_, by decide⟩
  · intro m hm
    obtain ⟨a, b, c, d, e⟩ := Hmem m hm
    exact ⟨c, d, b, e⟩
  · refine Hchain.imp fun a b hab => ?_
    have := hab.1
    exact ⟨by omega, by omega⟩
  · exact Hchain.imp fun a b hab => hab.2

/-- Witness for C5 at the spec's concrete example: the EcoRI pattern
`GAATTC` compiles, and the scan facts hold for it on `GAATTCGAATTC`. -/
theorem find_patterns_regex_scan_witness :
    parseRegex "GAATTC".toList = some
        [.once (.ch 'G'), .once (.ch 'A'), .once (.ch 'A'),
         .once (.ch 'T'), .once (.ch 'T'), .once (.ch 'C')] ∧
    ((∀ m ∈ find_patterns_regex "GAATTCGAATTC".toList "GAATTC".toList,
        matchPieces
            [.once (.ch 'G'), .once (.ch 'A'), .once (.ch 'A'),
             .once (.ch 'T'), .once (.ch 'T'), .once (.ch 'C')]
            ("GAATTCGAATTC".toList.drop m.start) = some (m.stop - m.start) ∧
        m.start ≤ m.stop ∧ m.start ≤ "GAATTCGAATTC".toList.length ∧
        m.matched_sequence =
          ("GAATTCGAATTC".toList.drop m.start).take (m.stop - m.start)) ∧
    List.Chain' (fun a b => a.stop ≤ b.start ∧ a.start < b.start)
      (find_patterns_regex "GAATTCGAATTC".toList "GAATTC".toList) ∧
    (∀ m, (find_patterns_regex "GAATTCGAATTC".toList "GAATTC".toList).head? =
          some m →
        NoMatchBetween
          [.once (.ch 'G'), .once (.ch 'A'), .once (.ch 'A'),
           .once (.ch 'T'), .once (.ch 'T'), .once (.ch 'C')]
          "GAATTCGAATTC".toList 0 m.start) ∧
    List.Chain'
      (fun a b =>
        NoMatchBetween
          [.once (.ch 'G'), .once (.ch 'A'), .once (.ch 'A'),
           .once (.ch 'T'), .once (.ch 'T'), .once (.ch 'C')]
          "GAATTCGAATTC".toList (max a.stop (a.start + 1)) b.start)
      (find_patterns_regex "GAATTCGAATTC".toList "GAATTC".toList) ∧
    find_patterns_regex "GAATTCGAATTC".toList "GAATTC".toList =
      [{ start := 0, stop := 6, matched_sequence := "GAATTC".toList },
       { start := 6, stop := 12, matched_sequence := "GAATTC".toList }]) :=
  ⟨by decide,
    find_patterns_regex_scan "GAATTCGAATTC".toList "GAATTC".toList
      [.once (.ch 'G'), .once (.ch 'A'), .once (.ch 'A'),
       .once (.ch 'T'), .once (.ch 'T'), .once (.ch 'C')] (by decide)⟩

/-- C8: the scan always terminates — it emits at most `|S| + 1` records (one
per attempt position), and after any match, zero-width included, the next
match starts at least one position later and past the previous match's end. -/
theorem find_patterns_regex_advancement (S P : List Char) :
    List.Chain' (fun a b => max a.stop (a.start + 1) ≤ b.start)
      (find_patterns_regex S P) ∧
    (find_patterns_regex S P).length ≤ S.length + 1 := by
  rcases hp : parseRegex P with _ | r
  · simp [find_patterns_regex, hp]
  · have hfr : find_patterns_regex S P = finditerAux r S 0 (S.length + 1) := by
      simp [find_patterns_regex, hp, finditerRun]
    obtain ⟨-, -, Hchain, Hlen⟩ := finditerAux_invariant r S (S.length + 1) 0
    rw [hfr]
    exact ⟨Hchain.imp fun a b hab => hab.1, Hlen⟩

/-- A batch whose rows all pass stages exactly the given rows. -/
theorem execute_batch_ok (rowFails : MutationRow → Bool) :
    ∀ rows : List MutationRow, (∀ row ∈ rows, rowFails row = false) →
      execute_batch rowFails rows = .ok rows := by
  intro rows
  induction rows with
  | nil => intro _; rfl
  | cons row rest ih =>
      intro h
      have hrow := h row (by simp)
      rw [execute_batch, hrow]
      simp only [Bool.false_eq_true, if_false]
      rw [ih fun b hb => h b (by simp [hb])]
      rfl

/-- A batch containing a failing row raises. -/
theorem execute_batch_error (rowFails : MutationRow → Bool) :
    ∀ rows : List MutationRow, (∃ row ∈ rows, rowFails row = true) →
      ∃ e, execute_batch rowFails rows = .error e := by
  intro rows
  induction rows with
  | nil => rintro ⟨row, hrow, -⟩; exact absurd hrow (List.not_mem_nil _)
  | cons row rest ih =>
      rintro ⟨b, hb, hfail⟩
      rw [execute_batch]
      by_cases hrow : rowFails row = true
      · rw [if_pos hrow]
        exact ⟨_, rfl⟩
      · rw [if_neg hrow]
        have hbr : b ∈ rest := by
          rcases List.mem_cons.mp hb with hb0 | hbr
          · exact absurd (hb0 ▸ hfail) hrow
          · exact hbr
        obtain ⟨e, he⟩ := ih ⟨b, hbr, hfail⟩
        rw [he]
        exact ⟨e, rfl⟩

/-- C2: batch mutation logging is all-or-nothing. With both genomes present,
if every row passes, the whole computed batch is appended to the committed
`mutations` table and the operation reports success; if any row fails, the
transaction is rolled back and the committed state is exactly as before. -/
theorem compare_and_log_mutations_atomic (rowFails : MutationRow → Bool)
    (db : DB) (rid cid : Nat) (refSeq compSeq : List Char)
    (href : fetchGenome db rid = some refSeq)
    (hcomp : fetchGenome db cid = some compSeq) :
    ((∀ row ∈ (detect_mutations_simple refSeq compSeq).map (toMutationRow cid),
        rowFails row = false) →
      (compare_and_log_mutations rowFails db rid cid).1.mutations =
          db.mutations ++
            (detect_mutations_simple refSeq compSeq).map (toMutationRow cid) ∧
        (compare_and_log_mutations rowFails db rid cid).2 = .ok) ∧
    ((∃ row ∈ (detect_mutations_simple refSeq compSeq).map (toMutationRow cid),
        rowFails row = true) →
      (compare_and_log_mutations rowFails db rid cid).1 = db) := by
  simp only [compare_and_log_mutations, href, hcomp]
  by_cases hmut : detect_mutations_simple refSeq compSeq = []
  · rw [if_pos hmut]
    constructor
    · intro _
      rw [hmut]
      simp
    · rintro ⟨row, hrow, -⟩
      simp [hmut] at hrow
  · rw [if_neg hmut]
    constructor
    · intro hall
      rw [execute_batch_ok rowFails _ hall]
      exact ⟨rfl, rfl⟩
    · intro hex
      obtain ⟨e, he⟩ := execute_batch_error rowFails _ hex
      rw [he]

/-- Witness for C2: on the two-genome fixture with no failing rows the batch
commits in full; the hypotheses are discharged at concrete inputs. -/
theorem compare_and_log_mutations_atomic_witness :
    fetchGenome demoDB 1 = some "ACGT".toList ∧
    fetchGenome demoDB 3 = some "AGGT".toList ∧
    (((∀ row ∈ (detect_mutations_simple "ACGT".toList "AGGT".toList).map
          (toMutationRow 3),
        (fun _ : MutationRow => false) row = false) →
      (compare_and_log_mutations (fun _ => false) demoDB 1 3).1.mutations =
          demoDB.mutations ++
            (detect_mutations_simple "ACGT".toList "AGGT".toList).map
              (toMutationRow 3) ∧
        (compare_and_log_mutations (fun _ => false) demoDB 1 3).2 = .ok) ∧
    ((∃ row ∈ (detect_mutations_simple "ACGT".toList "AGGT".toList).map
          (toMutationRow 3),
        (fun _ : MutationRow => false) row = true) →
      (compare_and_log_mutations (fun _ => false) demoDB 1 3).1 = demoDB)) :=
  ⟨by decide, by decide,
    compare_and_log_mutations_atomic (fun _ => false) demoDB 1 3
      "ACGT".toList "AGGT".toList (by decide) (by decide)⟩

/-- Counterexample to C3: on an empty store, comparing genome ids 1 and 3
(both unknown) aborts, but the failure surfaced to the caller is the generic
caught `TypeError` of `cur.fetchone()[0]`, not a not-found condition — the
claim that every operation reports unknown ids as not-found is false. -/
theorem compare_and_log_mutations_not_found_counterexample :
    (compare_and_log_mutations (fun _ => false) emptyDB 1 3).2 =
        OpReport.failure "TypeError: NoneType object is not subscriptable" ∧
      (compare_and_log_mutations (fun _ => false) emptyDB 1 3).2 ≠
        OpReport.notFound 1 ∧
      (compare_and_log_mutations (fun _ => false) emptyDB 1 3).2 ≠
        OpReport.notFound 3 := by
  decide

/-- C3 amended: with an unknown genome id, both operations abort before any
write (the store is returned unchanged). The pattern search reports the
not-found condition; the comparison instead reports the generic caught
`TypeError` raised by subscripting the absent row. -/
theorem unknown_genome_id_aborts_before_write (db : DB)
    (gid rid cid : Nat) (rowFails : MutationRow → Bool) :
    (fetchGenome db gid = none →
        search_and_log_patterns db gid = (db, .notFound gid)) ∧
    (fetchGenome db rid = none ∨ fetchGenome db cid = none →
        compare_and_log_mutations rowFails db rid cid =
          (db, .failure "TypeError: NoneType object is not subscriptable")) := by
  constructor
  · intro h
    simp [search_and_log_patterns, h]
  · intro h
    rcases h with h | h
    · simp [compare_and_log_mutations, h]
    · rcases hr : fetchGenome db rid with _ | seq
      · simp [compare_and_log_mutations, hr]
      · simp [compare_and_log_mutations, hr, h]

/-- Witness for the amended C3 on the empty store: both hypotheses are
discharged at concrete unknown ids. -/
theorem unknown_genome_id_aborts_before_write_witness :
    fetchGenome emptyDB 7 = none ∧
    (search_and_log_patterns emptyDB 7 = (emptyDB, .notFound 7)) ∧
    (fetchGenome emptyDB 1 = none ∨ fetchGenome emptyDB 3 = none) ∧
    (compare_and_log_mutations (fun _ => false) emptyDB 1 3 =
      (emptyDB, .failure "TypeError: NoneType object is not subscriptable")) :=
  ⟨by decide,
    (unknown_genome_id_aborts_before_write emptyDB 7 1 3 (fun _ => false)).1
      (by decide),
    Or.inl (by decide),
    (unknown_genome_id_aborts_before_write emptyDB 7 1 3 (fun _ => false)).2
      (Or.inl (by decide))⟩

end GeneticAnalyzer
